import Mathlib

/-!
# Verification of `main.py` (Discord client-side message bot)

Shallow embedding of the repository's single source file `src/main.py` and
proofs about the claims of its specification.

Conventions used throughout:

* Python `float` values are embedded as `ℚ` (only storage, parsing and
  comparison of finite decimal values occur in the program).
* Fallible Python code is embedded as `Except PyError` values; a `try/except`
  block becomes a `match` on the result that maps the caught error kinds to
  the handler's result and re-raises the rest.
* The interactive `input()` prompts are embedded by passing the scripted
  user input as an explicit `List String`; a prompting loop that would keep
  re-prompting past the end of the scripted input is represented by `none`.
-/

/-- JSON values, as produced by `json.loads` and consumed by `json.dumps`.
Object fields are an association list of string keys; `json.loads` always
yields dicts whose keys are unique (a duplicate key in the text is collapsed
before the program ever sees it). -/
inductive Json where
  | null
  | bool (b : Bool)
  | num (q : ℚ)
  | str (s : String)
  | arr (items : List Json)
  | obj (fields : List (String × Json))

/-- The `ScheduledMessage` dataclass of `main.py`.  Python dataclasses do not
check field types, and `load_saved_messages` builds instances directly from
parsed JSON via `ScheduledMessage(**item)`, so each field can hold an
arbitrary JSON value.  The menu operations only ever store strings in
`content` and numbers in `delay_seconds`. -/
structure ScheduledMessage where
  content : Json
  delay_seconds : Json

/-- The Python exception kinds that appear in `main.py`. -/
inductive PyError where
  | jsonDecodeError
  | typeError
  | keyError
  | valueError
  | indexError
  deriving DecidableEq

/-- Iterating `for item in data` over a parsed JSON value: lists yield their
items, strings yield their characters (as one-character strings), dicts yield
their keys; `null`, booleans and numbers are not iterable and raise
`TypeError`. -/
def iterItems : Json → Except PyError (List Json)
  | .null => .error .typeError
  | .bool _ => .error .typeError
  | .num _ => .error .typeError
  | .str s => .ok (s.toList.map fun c => Json.str (String.mk [c]))
  | .arr items => .ok items
  | .obj fields => .ok (fields.map fun kv => Json.str kv.1)

/-- Constructing `ScheduledMessage(**item)`: succeeds exactly when `item` is a dict whose
key set is exactly `{content, delay_seconds}`; a non-mapping item, a missing
key or an unexpected key raises `TypeError`.  Field values are taken as-is,
with no type check. -/
def msgFromKwargs : Json → Except PyError ScheduledMessage
  | .obj fields =>
    if (fields.map Prod.fst).all (fun k => k == "content" || k == "delay_seconds") then
      match fields.lookup "content", fields.lookup "delay_seconds" with
      | some c, some d => .ok { content := c, delay_seconds := d }
      | _, _ => .error .typeError
    else
      .error .typeError
  | _ => .error .typeError

/-- The list comprehension `[ScheduledMessage(**item) for item in data]`
applied to an already-iterated list of items: the first failing item's
exception propagates. -/
def msgsFromItems : List Json → Except PyError (List ScheduledMessage)
  | [] => .ok []
  | item :: rest =>
    match msgFromKwargs item with
    | .error e => .error e
    | .ok m =>
      match msgsFromItems rest with
      | .error e => .error e
      | .ok ms => .ok (m :: ms)

/-- The body of the `try` block of `load_saved_messages`: `json.loads` (a
parse failure raises `JSONDecodeError`, embedded as the `none` case) followed
by the list comprehension over the parsed value. -/
def decodeSnapshot : Option Json → Except PyError (List ScheduledMessage)
  | none => .error .jsonDecodeError
  | some data =>
    match iterItems data with
    | .error e => .error e
    | .ok items => msgsFromItems items

/-- State of the snapshot file `scheduled_messages.json`: absent, or present
with the result of `json.loads` on its text (`none` when the text is not
valid JSON). -/
inductive Snapshot where
  | absent
  | file (parsed : Option Json)

/-- The exception kinds caught by `load_saved_messages`'s
`except (json.JSONDecodeError, TypeError, KeyError)` clause. -/
def caughtByLoad : PyError → Bool
  | .jsonDecodeError => true
  | .typeError => true
  | .keyError => true
  | _ => false

/-- Function `load_saved_messages`: returns `[]` when the file is absent; otherwise
runs the decode and returns `[]` on any caught exception (after printing a
notice).  Any uncaught exception would propagate, hence the `Except` result
type. -/
def load_saved_messages : Snapshot → Except PyError (List ScheduledMessage)
  | .absent => .ok []
  | .file parsed =>
    match decodeSnapshot parsed with
    | .ok msgs => .ok msgs
    | .error e => if caughtByLoad e then .ok [] else .error e

/-- Function `save_messages`: serializes `[msg.__dict__ for msg in messages]`, i.e. a
JSON array of objects with the dataclass's fields in declaration order.
`json.dumps` followed by `json.loads` is the identity on JSON values (strings
are escaped and unescaped exactly; finite floats print via `repr` and parse
back to the same value), so the write/read of the snapshot text is embedded
as the identity at the `Json` level. -/
def save_messages (messages : List ScheduledMessage) : Json :=
  .arr (messages.map fun m => .obj [("content", m.content), ("delay_seconds", m.delay_seconds)])

/-- A schedule is valid when every message holds a string content and a
numeric delay (the only shapes the menu operations ever create). -/
def validSchedule (messages : List ScheduledMessage) : Prop :=
  ∀ m ∈ messages, (∃ s, m.content = Json.str s) ∧ (∃ q, m.delay_seconds = Json.num q)

theorem msgFromKwargs_saved (m : ScheduledMessage) :
    msgFromKwargs (Json.obj [("content", m.content), ("delay_seconds", m.delay_seconds)]) = .ok m := by
  rfl

theorem msgsFromItems_saved (messages : List ScheduledMessage) :
    msgsFromItems (messages.map fun m =>
      Json.obj [("content", m.content), ("delay_seconds", m.delay_seconds)]) = .ok messages := by
  induction messages with
  | nil => rfl
  | cons m rest ih =>
    simp only [List.map_cons, msgsFromItems, msgFromKwargs_saved, ih]

theorem decodeSnapshot_save (messages : List ScheduledMessage) :
    decodeSnapshot (some (save_messages messages)) = .ok messages := by
  simp only [decodeSnapshot, save_messages, iterItems, msgsFromItems_saved]

/-- C4: save followed by load round-trips every valid schedule exactly. -/
theorem c4_save_load_roundtrip (messages : List ScheduledMessage)
    (_hvalid : validSchedule messages) :
    load_saved_messages (.file (some (save_messages messages))) = .ok messages := by
  simp only [load_saved_messages, decodeSnapshot_save]

theorem c4_witness :
    validSchedule [⟨Json.str "hi", Json.num 5⟩, ⟨Json.str "bye", Json.num 10⟩] ∧
    load_saved_messages (.file (some (save_messages
      [⟨Json.str "hi", Json.num 5⟩, ⟨Json.str "bye", Json.num 10⟩]))) =
      .ok [⟨Json.str "hi", Json.num 5⟩, ⟨Json.str "bye", Json.num 10⟩] := by
  constructor
  · intro m hm
    simp only [List.mem_cons, List.not_mem_nil, or_false] at hm
    rcases hm with h | h <;> subst h <;> exact ⟨⟨_, rfl⟩, ⟨_, rfl⟩⟩
  · exact c4_save_load_roundtrip _ (by
      intro m hm
      simp only [List.mem_cons, List.not_mem_nil, or_false] at hm
      rcases hm with h | h <;> subst h <;> exact ⟨⟨_, rfl⟩, ⟨_, rfl⟩⟩)

theorem iterItems_error (data : Json) (e : PyError) (h : iterItems data = .error e) :
    e = .typeError := by
  cases data <;> simp only [iterItems, Except.error.injEq, reduceCtorEq] at h <;> exact h.symm

theorem msgFromKwargs_error (item : Json) (e : PyError) (h : msgFromKwargs item = .error e) :
    e = .typeError := by
  cases item <;> simp only [msgFromKwargs, Except.error.injEq, reduceCtorEq] at h
  case obj fields =>
    split at h
    · split at h
      · exact absurd h (by simp)
      · injection h with h; exact h.symm
    · injection h with h; exact h.symm
  all_goals exact h.symm

theorem msgsFromItems_error (items : List Json) (e : PyError)
    (h : msgsFromItems items = .error e) : e = .typeError := by
  induction items with
  | nil => exact absurd h (by simp [msgsFromItems])
  | cons item rest ih =>
    simp only [msgsFromItems] at h
    cases hk : msgFromKwargs item with
    | error e2 =>
      simp only [hk, Except.error.injEq] at h
      subst h
      exact msgFromKwargs_error item _ hk
    | ok m =>
      simp only [hk] at h
      cases hr : msgsFromItems rest with
      | error e2 =>
        simp only [hr, Except.error.injEq] at h
        subst h
        exact ih hr
      | ok ms => simp only [hr, reduceCtorEq] at h

theorem decodeSnapshot_error_caught (parsed : Option Json) (e : PyError)
    (h : decodeSnapshot parsed = .error e) : caughtByLoad e = true := by
  cases parsed with
  | none =>
    simp only [decodeSnapshot] at h
    injection h with h; subst h; rfl
  | some data =>
    simp only [decodeSnapshot] at h
    cases hi : iterItems data with
    | error e2 =>
      simp only [hi, Except.error.injEq] at h
      subst h
      have := iterItems_error data _ hi
      subst this; rfl
    | ok items =>
      simp only [hi] at h
      have := msgsFromItems_error items e h
      subst this; rfl

/-- C5: `load_saved_messages` never propagates an exception: for every state
of the snapshot file it returns a schedule; an absent file, unparseable text,
or a structurally invalid parsed value all yield the empty schedule. -/
theorem c5_load_never_raises :
    (∀ s : Snapshot, ∃ msgs, load_saved_messages s = .ok msgs) ∧
    load_saved_messages .absent = .ok [] ∧
    load_saved_messages (.file none) = .ok [] ∧
    (∀ (j : Json) (e : PyError), decodeSnapshot (some j) = .error e →
      load_saved_messages (.file (some j)) = .ok []) := by
  refine ⟨?_, rfl, rfl, ?_⟩
  · intro s
    cases s with
    | absent => exact ⟨[], rfl⟩
    | file parsed =>
      simp only [load_saved_messages]
      cases hdec : decodeSnapshot parsed with
      | ok msgs => exact ⟨msgs, rfl⟩
      | error e =>
        refine ⟨[], ?_⟩
        show (if caughtByLoad e = true then Except.ok [] else Except.error e) = Except.ok []
        rw [decodeSnapshot_error_caught parsed e hdec]
        rfl
  · intro j e h
    simp only [load_saved_messages, h]
    rw [decodeSnapshot_error_caught (some j) e h]
    rfl

/-- Python's `str.strip()`: remove leading and trailing whitespace. -/
def pyStrip (s : String) : String :=
  String.mk (((s.toList.dropWhile Char.isWhitespace).reverse.dropWhile Char.isWhitespace).reverse)

/-- The numeric value of a digit string. -/
def digitsVal (cs : List Char) : Nat :=
  cs.foldl (fun a c => a * 10 + (c.toNat - 48)) 0

/-- Unsigned part of the `float()` builtin on plain decimal literals:
digits, optionally followed by a dot and further digits (at least one digit
somewhere).  The value of `ip.fp` is `(ip * 10^|fp| + fp) / 10^|fp|`. -/
def parseUnsignedFloat (cs : List Char) : Option ℚ :=
  let p := cs.span Char.isDigit
  match p.2 with
  | [] => if p.1.isEmpty then none else some (mkRat (digitsVal p.1) 1)
  | '.' :: afterDot =>
    let q := afterDot.span Char.isDigit
    if q.2.isEmpty && !(p.1.isEmpty && q.1.isEmpty) then
      some (mkRat (digitsVal p.1 * 10 ^ q.1.length + digitsVal q.1) (10 ^ q.1.length))
    else none
  | _ => none

/-- The `float()` builtin on the plain decimal fragment (optional sign,
integer digits, optional fractional digits) — the only numeric inputs the
program's prompts need.  Exotic accepted forms (exponents, `inf`/`nan`,
underscore separators) are outside the model and count as a `ValueError`,
which only makes the prompting loop ask again. -/
def pyFloat (s : String) : Option ℚ :=
  match s.toList with
  | '-' :: cs => (parseUnsignedFloat cs).map (fun q => -q)
  | '+' :: cs => parseUnsignedFloat cs
  | cs => parseUnsignedFloat cs

/-- The `int()` builtin on the plain decimal fragment (optional sign and
digits); anything else counts as a `ValueError`, making the prompting loop
ask again. -/
def pyInt (s : String) : Option Int :=
  match s.toList with
  | '-' :: cs => if cs.isEmpty || !cs.all Char.isDigit then none else some (-(digitsVal cs : Int))
  | '+' :: cs => if cs.isEmpty || !cs.all Char.isDigit then none else some (digitsVal cs)
  | cs => if cs.isEmpty || !cs.all Char.isDigit then none else some (digitsVal cs)

/-- Function `prompt_float`: keeps prompting until an input parses as a float — with
no constraint on its sign — or, when `allow_empty`, until a blank input,
which returns `None` (embedded as `some none`).  The scripted console inputs
are an explicit list; the outer `none` means the script ran out while the
loop was still re-prompting. -/
def prompt_float (allow_empty : Bool) : List String → Option (Option ℚ)
  | [] => none
  | rawInput :: rest =>
    let raw := pyStrip rawInput
    if allow_empty && raw.isEmpty then some none
    else
      match pyFloat raw with
      | some value => some (some value)
      | none => prompt_float allow_empty rest

/-- The `while True` loop of `prompt_index` (runs only when `max_index ≠ 0`):
re-prompts until an input parses as an integer in `[1, max_index]` and
returns it minus one; `none` means the scripted input ran out first. -/
def promptIndexLoop (max_index : Nat) : List String → Option Nat
  | [] => none
  | rawInput :: rest =>
    match pyInt (pyStrip rawInput) with
    | none => promptIndexLoop max_index rest
    | some value =>
      if 1 ≤ value ∧ value ≤ (max_index : Int) then some (value - 1).toNat
      else promptIndexLoop max_index rest

/-- Function `prompt_index`: `some none` (the Python `None`) when there are no
messages, otherwise a zero-based index from the prompting loop.  The outer
`none` again means the scripted input ran out while the loop re-prompted. -/
def prompt_index (max_index : Nat) (inputs : List String) : Option (Option Nat) :=
  if max_index = 0 then some none
  else (promptIndexLoop max_index inputs).map some

/-- The edit branch of `manage_schedule` (menu option 2) applied to the
selected message.  `newContent` is the already-stripped replacement (the
code's `new_content` local): it is stored only when non-empty (Python string
truthiness); the delay is stored only when the prompt returned an explicit
number (`none` = blank = keep current value). -/
def edit_message (current : ScheduledMessage) (newContent : String) (newDelay : Option ℚ) :
    ScheduledMessage :=
  { content := if newContent.isEmpty then current.content else Json.str newContent
    delay_seconds :=
      match newDelay with
      | some d => Json.num d
      | none => current.delay_seconds }

/-- The sample schedule installed by menu option 6. -/
def sample_schedule : List ScheduledMessage :=
  [{ content := Json.str "Hello from the Discord browser automation demo!",
     delay_seconds := Json.num (mkRat 5 1) },
   { content := Json.str "Each message can have its own delay.",
     delay_seconds := Json.num (mkRat 10 1) },
   { content := Json.str "Update the list in main.py to fit your needs.",
     delay_seconds := Json.num (mkRat 15 1) }]

/-- Python list indexing `messages[index]` for the non-negative indices used
here: raises `IndexError` when out of range. -/
def pyGet (messages : List ScheduledMessage) (index : Nat) : Except PyError ScheduledMessage :=
  match messages[index]? with
  | some m => .ok m
  | none => .error .indexError

/-- The argument carried by a `raise SystemExit(...)`. -/
inductive SystemExitArg where
  | noneArg
  | intArg (code : Int)
  | strArg (message : String)

/-- CPython's handling of an uncaught `SystemExit` reaching the top of the
interpreter: `None` exits with status 0, an `int` with that value, and any
other object — a string here — is printed to stderr and the process exits
with status 1. -/
def systemExitStatus : SystemExitArg → Int
  | .noneArg => 0
  | .intArg code => code
  | .strArg _ => 1

/-- One menu selection of `manage_schedule` together with the console inputs
its branch then consumes.  The constructors are the code's options `1`-`6`
and `q`; `invalid` stands for any other selection string. -/
inductive MenuChoice where
  | add (contentInput : String) (delayInputs : List String)
  | edit (indexInputs : List String) (contentInput : String) (delayInputs : List String)
  | delete (indexInputs : List String)
  | clearAll
  | startSending
  | loadSample
  | quit
  | invalid (raw : String)

/-- What one pass of `manage_schedule`'s `while True` loop does. -/
inductive MenuOutcome where
  | cont (messages : List ScheduledMessage)
  | blocked
  | start (messages : List ScheduledMessage)
  | exit (arg : SystemExitArg)

/-- The message list an outcome leaves the store with (`blocked` and `exit`
carry none: the loop never gets past the pending prompt, or the process
terminates). -/
def outcomeMessages : MenuOutcome → List ScheduledMessage
  | .cont messages => messages
  | .start messages => messages
  | .blocked => []
  | .exit _ => []

/-- One iteration of `manage_schedule`'s menu loop: the branch of the
`if/elif` chain for the given selection.  Each mutating branch's
`save_messages` call persists exactly the list the outcome carries, so the
snapshot write is not repeated here.  An `.error` result would be an uncaught
Python exception escaping the loop. -/
def manage_schedule_step (messages : List ScheduledMessage) :
    MenuChoice → Except PyError MenuOutcome
  | .add contentInput delayInputs =>
    let content := pyStrip contentInput
    if content.isEmpty then .ok (.cont messages)
    else
      match prompt_float false delayInputs with
      | none => .ok .blocked
      | some none => .ok .blocked
      | some (some delay) =>
        .ok (.cont (messages ++ [{ content := Json.str content, delay_seconds := Json.num delay }]))
  | .edit indexInputs contentInput delayInputs =>
    match prompt_index messages.length indexInputs with
    | none => .ok .blocked
    | some none => .ok (.cont messages)
    | some (some index) =>
      match pyGet messages index with
      | .error e => .error e
      | .ok current =>
        match prompt_float true delayInputs with
        | none => .ok .blocked
        | some newDelay =>
          .ok (.cont (messages.set index (edit_message current (pyStrip contentInput) newDelay)))
  | .delete indexInputs =>
    match prompt_index messages.length indexInputs with
    | none => .ok .blocked
    | some none => .ok (.cont messages)
    | some (some index) =>
      match pyGet messages index with
      | .error e => .error e
      | .ok _removed => .ok (.cont (messages.eraseIdx index))
  | .clearAll => .ok (.cont [])
  | .startSending =>
    if messages.isEmpty then .ok (.cont messages)
    else .ok (.start messages)
  | .loadSample => .ok (.cont sample_schedule)
  | .quit => .ok (.exit (.strArg "Exiting without sending messages."))
  | .invalid _ => .ok (.cont messages)

/-- The spec's per-message content invariant: a non-empty string. -/
def contentNonEmpty : Json → Bool
  | .str s => !s.isEmpty
  | _ => false

/-- The spec's per-message delay invariant: a number that is ≥ 0. -/
def delayNonneg : Json → Bool
  | .num q => decide (0 ≤ q)
  | _ => false

/-- The spec's Schedule invariant: every message has a non-empty string
content and a non-negative numeric delay. -/
def scheduleInvariant (messages : List ScheduledMessage) : Bool :=
  messages.all fun m => contentNonEmpty m.content && delayNonneg m.delay_seconds

/-- The half of the Schedule invariant the code does enforce. -/
def contentInvariant (messages : List ScheduledMessage) : Bool :=
  messages.all fun m => contentNonEmpty m.content

/-- C3: the edit operation's frame conditions: blank content and blank delay
leave the selected message unchanged; a non-empty content replacement alone
updates only the content field; a numeric delay replacement alone updates
only the delay field. -/
theorem c3_edit_keep_on_blank (m : ScheduledMessage) (c : String) (d : ℚ) :
    edit_message m "" none = m ∧
    (c.isEmpty = false →
      (edit_message m c none).content = Json.str c ∧
      (edit_message m c none).delay_seconds = m.delay_seconds) ∧
    ((edit_message m "" (some d)).content = m.content ∧
      (edit_message m "" (some d)).delay_seconds = Json.num d) := by
  refine ⟨rfl, fun h => ⟨?_, rfl⟩, rfl, rfl⟩
  simp [edit_message, h]

/-- C8: invoking start-sending with an empty schedule is rejected (the menu
loop continues, no transition into delivery); with a non-empty schedule the
loop returns the schedule, entering delivery. -/
theorem c8_start_sending_requires_nonempty (messages : List ScheduledMessage) :
    (messages = [] → manage_schedule_step messages .startSending = .ok (.cont messages)) ∧
    (messages ≠ [] → manage_schedule_step messages .startSending = .ok (.start messages)) := by
  constructor
  · intro h; subst h; rfl
  · intro h
    cases messages with
    | nil => exact absurd rfl h
    | cons a l => rfl

theorem c8_witness :
    manage_schedule_step [] .startSending = .ok (.cont []) ∧
    manage_schedule_step sample_schedule .startSending = .ok (.start sample_schedule) :=
  ⟨(c8_start_sending_requires_nonempty []).1 rfl,
   (c8_start_sending_requires_nonempty sample_schedule).2 (by simp [sample_schedule])⟩

/-- C9 as stated is false: quitting raises `SystemExit` with a *string*
argument, and CPython exits with status 1 on a non-`None`, non-`int`
argument, so the termination does signal a failure status. -/
theorem c9_counterexample :
    manage_schedule_step [] .quit =
      .ok (.exit (.strArg "Exiting without sending messages.")) ∧
    systemExitStatus (.strArg "Exiting without sending messages.") = 1 :=
  ⟨rfl, rfl⟩

/-- C9 amended: quitting before starting terminates the process without any
transition into delivery (the outcome is a `SystemExit`, never `start`), via
an orderly `SystemExit` carrying a descriptive message — but since the
argument is a string, the process exit status is 1, the same mechanism as the
fatal missing-configuration exit, not a non-error status. -/
theorem c9_quit_terminates_status_one (messages : List ScheduledMessage) :
    manage_schedule_step messages .quit =
      .ok (.exit (.strArg "Exiting without sending messages.")) ∧
    systemExitStatus (.strArg "Exiting without sending messages.") = 1 :=
  ⟨rfl, rfl⟩

theorem promptIndexLoop_lt (max_index : Nat) (inputs : List String) (i : Nat)
    (h : promptIndexLoop max_index inputs = some i) : i < max_index := by
  induction inputs with
  | nil => exact absurd h (by simp [promptIndexLoop])
  | cons rawInput rest ih =>
    simp only [promptIndexLoop] at h
    cases hp : pyInt (pyStrip rawInput) with
    | none =>
      simp only [hp] at h
      exact ih h
    | some value =>
      simp only [hp] at h
      split at h
      · rename_i hcond
        injection h with h
        omega
      · exact ih h

theorem prompt_index_some_lt (max_index : Nat) (inputs : List String) (i : Nat)
    (h : prompt_index max_index inputs = some (some i)) : i < max_index := by
  unfold prompt_index at h
  split at h
  · injection h with h
    exact absurd h (by simp)
  · cases hl : promptIndexLoop max_index inputs with
    | none => rw [hl] at h; exact absurd h (by simp)
    | some j =>
      rw [hl] at h
      injection h with h
      injection h with h
      subst h
      exact promptIndexLoop_lt max_index inputs j hl

/-- C10: `prompt_index` returns `None` exactly when the schedule is empty and
otherwise only zero-based indices below the length; consequently the edit and
delete branches never raise `IndexError`. -/
theorem c10_prompt_index_in_range :
    (∀ inputs, prompt_index 0 inputs = some none) ∧
    (∀ max_index inputs i, prompt_index max_index inputs = some (some i) → i < max_index) ∧
    (∀ max_index inputs, 0 < max_index → prompt_index max_index inputs ≠ some none) ∧
    (∀ messages indexInputs contentInput delayInputs,
      manage_schedule_step messages (.edit indexInputs contentInput delayInputs) ≠
        .error .indexError) ∧
    (∀ messages indexInputs,
      manage_schedule_step messages (.delete indexInputs) ≠ .error .indexError) := by
  have hget : ∀ (messages : List ScheduledMessage) index,
      index < messages.length → ∃ m, pyGet messages index = .ok m := by
    intro messages index hlt
    exact ⟨messages[index], by simp [pyGet, List.getElem?_eq_getElem hlt]⟩
  refine ⟨fun inputs => rfl, fun m i j h => prompt_index_some_lt m i j h, ?_, ?_, ?_⟩
  · intro max_index inputs hpos h
    unfold prompt_index at h
    rw [if_neg (Nat.pos_iff_ne_zero.mp hpos)] at h
    cases hl : promptIndexLoop max_index inputs with
    | none => rw [hl] at h; exact absurd h (by simp)
    | some j => rw [hl] at h; simp at h
  · intro messages indexInputs contentInput delayInputs h
    simp only [manage_schedule_step] at h
    cases hpi : prompt_index messages.length indexInputs with
    | none => simp only [hpi] at h; exact absurd h (by simp)
    | some o =>
      cases o with
      | none => simp only [hpi] at h; exact absurd h (by simp)
      | some index =>
        simp only [hpi] at h
        obtain ⟨m, hm⟩ := hget messages index
          (prompt_index_some_lt messages.length indexInputs index hpi)
        simp only [hm] at h
        cases hf : prompt_float true delayInputs with
        | none => simp only [hf] at h; exact absurd h (by simp)
        | some nd => simp only [hf] at h; exact absurd h (by simp)
  · intro messages indexInputs h
    simp only [manage_schedule_step] at h
    cases hpi : prompt_index messages.length indexInputs with
    | none => simp only [hpi] at h; exact absurd h (by simp)
    | some o =>
      cases o with
      | none => simp only [hpi] at h; exact absurd h (by simp)
      | some index =>
        simp only [hpi] at h
        obtain ⟨m, hm⟩ := hget messages index
          (prompt_index_some_lt messages.length indexInputs index hpi)
        simp only [hm] at h
        exact absurd h (by simp)

/-- C6 as stated is false: `prompt_float` accepts any parseable float with no
sign check, so the add operation produces a schedule whose message has
`delay_seconds = -5 < 0`, violating the claimed invariant. -/
theorem c6_counterexample :
    (manage_schedule_step [] (.add "spam" ["-5"])).map
      (fun out => scheduleInvariant (outcomeMessages out)) = .ok false ∧
    (manage_schedule_step [] (.add "spam" ["-5"])).map
      (fun out => contentInvariant (outcomeMessages out)) = .ok true ∧
    (manage_schedule_step [] (.add "spam" ["-5"])).map
      (fun out => (outcomeMessages out).length) = .ok 1 ∧
    prompt_float false ["-5"] = some (some (-5)) := by
  refine ⟨by rfl, by rfl, by rfl, by decide⟩

theorem pyGet_mem (messages : List ScheduledMessage) (index : Nat) (m : ScheduledMessage)
    (h : pyGet messages index = .ok m) : m ∈ messages := by
  unfold pyGet at h
  cases hg : messages[index]? with
  | none => rw [hg] at h; exact absurd h (by simp)
  | some a =>
    rw [hg] at h
    injection h with h
    subst h
    obtain ⟨hl, rfl⟩ := List.getElem?_eq_some.mp hg
    exact List.getElem_mem hl

/-- C6 amended: the menu operations (add, edit, delete, clear, load-sample,
start) preserve the non-empty-content half of the invariant — add rejects
empty content, edit keeps the current content on blank input — but nothing
enforces `delay_seconds ≥ 0`: `prompt_float` performs no sign check, and
`load_saved_messages` performs no value validation at all. -/
theorem c6_content_invariant_preserved (messages : List ScheduledMessage)
    (choice : MenuChoice) (out : MenuOutcome)
    (hinv : contentInvariant messages = true)
    (hstep : manage_schedule_step messages choice = .ok out) :
    contentInvariant (outcomeMessages out) = true := by
  cases choice with
  | add contentInput delayInputs =>
    simp only [manage_schedule_step] at hstep
    split at hstep
    · injection hstep with hstep; subst hstep; exact hinv
    · rename_i hne
      cases hf : prompt_float false delayInputs with
      | none =>
        simp only [hf] at hstep
        injection hstep with hstep; subst hstep; rfl
      | some o =>
        cases o with
        | none =>
          simp only [hf] at hstep
          injection hstep with hstep; subst hstep; rfl
        | some delay =>
          simp only [hf] at hstep
          injection hstep with hstep; subst hstep
          simp only [outcomeMessages, contentInvariant, List.all_append,
            Bool.and_eq_true] at hinv ⊢
          refine ⟨hinv, ?_⟩
          simp only [List.all_cons, List.all_nil, Bool.and_true, contentNonEmpty]
          simpa using hne
  | edit indexInputs contentInput delayInputs =>
    simp only [manage_schedule_step] at hstep
    cases hpi : prompt_index messages.length indexInputs with
    | none =>
      simp only [hpi] at hstep
      injection hstep with hstep; subst hstep; rfl
    | some o =>
      cases o with
      | none =>
        simp only [hpi] at hstep
        injection hstep with hstep; subst hstep; exact hinv
      | some index =>
        simp only [hpi] at hstep
        cases hg : pyGet messages index with
        | error e => simp only [hg, reduceCtorEq] at hstep
        | ok current =>
          simp only [hg] at hstep
          cases hf : prompt_float true delayInputs with
          | none =>
            simp only [hf] at hstep
            injection hstep with hstep; subst hstep; rfl
          | some newDelay =>
            simp only [hf] at hstep
            injection hstep with hstep; subst hstep
            simp only [outcomeMessages, contentInvariant, List.all_eq_true] at hinv ⊢
            intro x hx
            rcases List.mem_or_eq_of_mem_set hx with hmem | heq
            · exact hinv x hmem
            · subst heq
              cases hemp : (pyStrip contentInput).isEmpty with
              | true =>
                simp only [edit_message, hemp, if_true]
                exact hinv current (pyGet_mem messages index current hg)
              | false =>
                simp [edit_message, hemp, contentNonEmpty]
  | delete indexInputs =>
    simp only [manage_schedule_step] at hstep
    cases hpi : prompt_index messages.length indexInputs with
    | none =>
      simp only [hpi] at hstep
      injection hstep with hstep; subst hstep; rfl
    | some o =>
      cases o with
      | none =>
        simp only [hpi] at hstep
        injection hstep with hstep; subst hstep; exact hinv
      | some index =>
        simp only [hpi] at hstep
        cases hg : pyGet messages index with
        | error e => simp only [hg, reduceCtorEq] at hstep
        | ok removed =>
          simp only [hg] at hstep
          injection hstep with hstep; subst hstep
          simp only [outcomeMessages, contentInvariant, List.all_eq_true] at hinv ⊢
          exact fun x hx => hinv x (List.mem_of_mem_eraseIdx hx)
  | clearAll =>
    injection hstep with hstep; subst hstep; rfl
  | startSending =>
    simp only [manage_schedule_step] at hstep
    split at hstep
    · injection hstep with hstep; subst hstep; exact hinv
    · injection hstep with hstep; subst hstep; exact hinv
  | loadSample =>
    injection hstep with hstep; subst hstep; rfl
  | quit =>
    injection hstep with hstep; subst hstep; rfl
  | invalid raw =>
    injection hstep with hstep; subst hstep; exact hinv

theorem c6_witness :
    contentInvariant (outcomeMessages (MenuOutcome.cont sample_schedule)) = true :=
  c6_content_invariant_preserved [] .loadSample (.cont sample_schedule) rfl rfl

/-- Which bounded UI waits of `ensure_logged_in` find their element within
the timeout in a given run (`false`: the element never appears and the wait
raises `PlaywrightTimeoutError`). -/
structure UiEnv where
  textboxAtLogin : Bool
  emailField : Bool
  passwordField : Bool
  textboxAtChannel : Bool

/-- The element a timed-out Playwright wait was for. -/
inductive PwElement where
  | loginTextbox
  | emailInput
  | passwordInput
  | channelTextbox
  deriving DecidableEq

/-- Exception `PlaywrightTimeoutError`, tagged with the element whose wait timed out. -/
structure PwTimeout where
  element : PwElement

/-- Function `click_open_in_browser`: clicks the "Open Discord in your browser"
interstitial button if it appears within 5s; its `except ... return` swallows
its own timeout, so it never raises regardless of the button's presence. -/
def click_open_in_browser : Except PwTimeout Unit := .ok ()

/-- Function `ensure_logged_in`: navigate to the login page, dismiss the optional
interstitial, probe for the textbox (`try wait_for_textbox`); on timeout run
the credential branch (wait for the email field — unhandled timeout —, fill
both fields, click submit); then navigate to the channel, dismiss the
interstitial again and re-probe for the textbox, whose timeout is unhandled.
The returned Bool records whether the credential-submission branch ran. -/
def ensure_logged_in (env : UiEnv) : Except PwTimeout Bool :=
  match click_open_in_browser with
  | .error e => .error e
  | .ok () =>
    let credBranch : Except PwTimeout Bool :=
      if env.textboxAtLogin then .ok false
      else if !env.emailField then .error ⟨.emailInput⟩
      else if !env.passwordField then .error ⟨.passwordInput⟩
      else .ok true
    match credBranch with
    | .error e => .error e
    | .ok ranCredentials =>
      match click_open_in_browser with
      | .error e => .error e
      | .ok () =>
        if env.textboxAtChannel then .ok ranCredentials
        else .error ⟨.channelTextbox⟩

/-- C7: a timeout of the initial textbox probe is non-fatal and routes into
the credential-submission branch; a timeout locating the email (or password)
field propagates; a timeout of the final re-probe after navigating to the
channel propagates; a successful initial probe skips credential submission. -/
theorem c7_auth_timeouts (env : UiEnv) :
    (env.textboxAtLogin = false → env.emailField = true → env.passwordField = true →
      env.textboxAtChannel = true → ensure_logged_in env = .ok true) ∧
    (env.textboxAtLogin = false → env.emailField = false →
      ensure_logged_in env = .error ⟨.emailInput⟩) ∧
    (env.textboxAtLogin = false → env.emailField = true → env.passwordField = false →
      ensure_logged_in env = .error ⟨.passwordInput⟩) ∧
    (env.textboxAtLogin = true → env.textboxAtChannel = true →
      ensure_logged_in env = .ok false) ∧
    ((env.textboxAtLogin = true ∨ (env.emailField = true ∧ env.passwordField = true)) →
      env.textboxAtChannel = false → ensure_logged_in env = .error ⟨.channelTextbox⟩) := by
  refine ⟨?_, ?_, ?_, ?_, ?_⟩
  · intro h1 h2 h3 h4
    simp [ensure_logged_in, click_open_in_browser, h1, h2, h3, h4]
  · intro h1 h2
    simp [ensure_logged_in, click_open_in_browser, h1, h2]
  · intro h1 h2 h3
    simp [ensure_logged_in, click_open_in_browser, h1, h2, h3]
  · intro h1 h4
    simp [ensure_logged_in, click_open_in_browser, h1, h4]
  · intro h1 h4
    rcases h1 with h1 | ⟨h2, h3⟩
    · simp [ensure_logged_in, click_open_in_browser, h1, h4]
    · cases h1 : env.textboxAtLogin <;>
        simp [ensure_logged_in, click_open_in_browser, h1, h2, h3, h4]

/-- The atomic actions of one pass of `run_message_loop`'s body.  Each is an
awaited call — a point where the cooperative event loop may switch tasks:
`asyncio.sleep(delay_seconds)`, `textbox.fill("")` (clear),
`textbox.type(content)`, `textbox.press("Enter")` (submit). -/
inductive SendStep where
  | sleep
  | fill
  | typeText
  | press

/-- Function `run_message_loop` as the action sequence of one task: the `while True`
body repeats `sleep; fill; type; press` forever, so a task's `k`-th awaited
action is determined by `k % 4`.  (The trailing `print` is synchronous, not
a scheduling point.)  Send `N` of a task is its actions `4N+1 .. 4N+3`,
preceded by the re-arming sleep at `4N`. -/
def loopStep (k : Nat) : SendStep :=
  match k % 4 with
  | 0 => .sleep
  | 1 => .fill
  | 2 => .typeText
  | _ => .press

/-- An execution of `send_messages` with `n` tasks (`asyncio.create_task`
once per message) is an interleaving: a finite trace assigning each global
step to the task that runs its next awaited action there.  The event loop
may switch tasks at every await and no lock is held, so every assignment is
an admissible trace (the elapsed sleeps decide which are realized; equal
delays make any alternation realizable).  `execAction` gives the action the
trace performs at global step `i`: the owning task's next `loopStep`. -/
def execAction {n : Nat} (sched : List (Fin n)) (i : Nat) : Option (Fin n × SendStep) :=
  (sched[i]?).map fun t => (t, loopStep ((sched.take i).count t))

/-- The global index in the trace of task `t`'s `k`-th action (0-based). -/
def occIdx {n : Nat} : List (Fin n) → Fin n → Nat → Option Nat
  | [], _, _ => none
  | s :: rest, t, 0 =>
    if s = t then some 0 else (occIdx rest t 0).map (· + 1)
  | s :: rest, t, k + 1 =>
    if s = t then (occIdx rest t k).map (· + 1)
    else (occIdx rest t (k + 1)).map (· + 1)

theorem occIdx_spec {n : Nat} (sched : List (Fin n)) (t : Fin n) (k i : Nat)
    (h : occIdx sched t k = some i) :
    (sched.take i).count t = k ∧ sched[i]? = some t := by
  induction sched generalizing k i with
  | nil => cases k <;> exact absurd h (by simp [occIdx])
  | cons s rest ih =>
    cases k with
    | zero =>
      simp only [occIdx] at h
      by_cases hst : s = t
      · rw [if_pos hst] at h
        injection h with h
        subst h
        subst hst
        simp
      · rw [if_neg hst] at h
        cases ho : occIdx rest t 0 with
        | none => rw [ho] at h; exact absurd h (by simp)
        | some i0 =>
          rw [ho] at h
          simp only [Option.map_some'] at h
          injection h with h
          subst h
          obtain ⟨h1, h2⟩ := ih 0 i0 ho
          refine ⟨?_, by simpa using h2⟩
          simp [List.count_cons_of_ne (fun hc => hst hc.symm), h1]
    | succ k =>
      simp only [occIdx] at h
      by_cases hst : s = t
      · rw [if_pos hst] at h
        cases ho : occIdx rest t k with
        | none => rw [ho] at h; exact absurd h (by simp)
        | some i0 =>
          rw [ho] at h
          simp only [Option.map_some'] at h
          injection h with h
          subst h
          obtain ⟨h1, h2⟩ := ih k i0 ho
          subst hst
          refine ⟨?_, by simpa using h2⟩
          simp [List.count_cons_self, h1]
      · rw [if_neg hst] at h
        cases ho : occIdx rest t (k + 1) with
        | none => rw [ho] at h; exact absurd h (by simp)
        | some i0 =>
          rw [ho] at h
          simp only [Option.map_some'] at h
          injection h with h
          subst h
          obtain ⟨h1, h2⟩ := ih (k + 1) i0 ho
          refine ⟨?_, by simpa using h2⟩
          simp [List.count_cons_of_ne (fun hc => hst hc.symm), h1]

theorem occIdx_succ_lt {n : Nat} (sched : List (Fin n)) (t : Fin n) (k i j : Nat)
    (hi : occIdx sched t k = some i) (hj : occIdx sched t (k + 1) = some j) : i < j := by
  induction sched generalizing k i j with
  | nil => cases k <;> exact absurd hi (by simp [occIdx])
  | cons s rest ih =>
    by_cases hst : s = t
    · cases k with
      | zero =>
        simp only [occIdx, if_pos hst] at hi hj
        injection hi with hi
        subst hi
        cases ho : occIdx rest t 0 with
        | none => rw [ho] at hj; exact absurd hj (by simp)
        | some j0 =>
          rw [ho] at hj
          simp only [Option.map_some', Option.some.injEq] at hj
          omega
      | succ k =>
        simp only [occIdx, if_pos hst] at hi hj
        cases hoi : occIdx rest t k with
        | none => rw [hoi] at hi; exact absurd hi (by simp)
        | some i0 =>
          cases hoj : occIdx rest t (k + 1) with
          | none => rw [hoj] at hj; exact absurd hj (by simp)
          | some j0 =>
            rw [hoi] at hi
            rw [hoj] at hj
            simp only [Option.map_some', Option.some.injEq] at hi hj
            have := ih k i0 j0 hoi hoj
            omega
    · cases k with
      | zero =>
        simp only [occIdx, if_neg hst] at hi hj
        cases hoi : occIdx rest t 0 with
        | none => rw [hoi] at hi; exact absurd hi (by simp)
        | some i0 =>
          cases hoj : occIdx rest t 1 with
          | none => rw [hoj] at hj; exact absurd hj (by simp)
          | some j0 =>
            rw [hoi] at hi
            rw [hoj] at hj
            simp only [Option.map_some', Option.some.injEq] at hi hj
            have := ih 0 i0 j0 hoi hoj
            omega
      | succ k =>
        simp only [occIdx, if_neg hst] at hi hj
        cases hoi : occIdx rest t (k + 1) with
        | none => rw [hoi] at hi; exact absurd hi (by simp)
        | some i0 =>
          cases hoj : occIdx rest t (k + 2) with
          | none => rw [hoj] at hj; exact absurd hj (by simp)
          | some j0 =>
            rw [hoi] at hi
            rw [hoj] at hj
            simp only [Option.map_some', Option.some.injEq] at hi hj
            have := ih (k + 1) i0 j0 hoi hoj
            omega

theorem loopStep_mod (N : Nat) :
    loopStep (4 * N) = .sleep ∧ loopStep (4 * N + 1) = .fill ∧
    loopStep (4 * N + 2) = .typeText ∧ loopStep (4 * N + 3) = .press := by
  refine ⟨?_, ?_, ?_, ?_⟩ <;>
    simp [loopStep, Nat.mul_add_mod, Nat.mul_mod_right]

/-- C2: in every admissible interleaving of `send_messages`'s tasks, for each
message (task) `t` and each `N`: send `N`'s submit (press) occurs strictly
before the re-arming sleep, which occurs strictly before send `N+1`'s clear
(fill) — a timer re-arms only after its current send completes, and sends of
the same message never overlap; and the loop body prescribes a send for every
`N` (it repeats indefinitely). -/
theorem c2_same_message_sends_ordered {n : Nat} (sched : List (Fin n)) (t : Fin n)
    (N i j k : Nat)
    (hi : occIdx sched t (4 * N + 3) = some i)
    (hj : occIdx sched t (4 * N + 4) = some j)
    (hk : occIdx sched t (4 * N + 5) = some k) :
    execAction sched i = some (t, .press) ∧
    execAction sched j = some (t, .sleep) ∧
    execAction sched k = some (t, .fill) ∧
    i < j ∧ j < k ∧
    (∀ M, loopStep (4 * M) = .sleep ∧ loopStep (4 * M + 1) = .fill ∧
      loopStep (4 * M + 2) = .typeText ∧ loopStep (4 * M + 3) = .press) := by
  obtain ⟨hc1, hg1⟩ := occIdx_spec sched t _ i hi
  obtain ⟨hc2, hg2⟩ := occIdx_spec sched t _ j hj
  obtain ⟨hc3, hg3⟩ := occIdx_spec sched t _ k hk
  have hsleep : loopStep (4 * N + 4) = .sleep := by
    have h := (loopStep_mod (N + 1)).1
    rw [show 4 * (N + 1) = 4 * N + 4 from by omega] at h
    exact h
  have hfill : loopStep (4 * N + 5) = .fill := by
    have h := (loopStep_mod (N + 1)).2.1
    rw [show 4 * (N + 1) + 1 = 4 * N + 5 from by omega] at h
    exact h
  refine ⟨?_, ?_, ?_, ?_, ?_, loopStep_mod⟩
  · simp [execAction, hg1, hc1, (loopStep_mod N).2.2.2]
  · simp [execAction, hg2, hc2, hsleep]
  · simp [execAction, hg3, hc3, hfill]
  · exact occIdx_succ_lt sched t (4 * N + 3) i j hi
      (by rw [show 4 * N + 3 + 1 = 4 * N + 4 from by omega]; exact hj)
  · exact occIdx_succ_lt sched t (4 * N + 4) j k hj
      (by rw [show 4 * N + 4 + 1 = 4 * N + 5 from by omega]; exact hk)

theorem c2_witness :
    execAction (List.replicate 8 (0 : Fin 1)) 3 = some (0, SendStep.press) ∧
    execAction (List.replicate 8 (0 : Fin 1)) 4 = some (0, SendStep.sleep) ∧
    execAction (List.replicate 8 (0 : Fin 1)) 5 = some (0, SendStep.fill) := by
  have h := c2_same_message_sends_ordered (List.replicate 8 (0 : Fin 1)) 0 0 3 4 5
    rfl rfl rfl
  exact ⟨h.1, h.2.1, h.2.2.1⟩

/-- The spec's mutual-exclusion discipline on the shared input surface:
between a send's clear (fill) and its submit (press), no other task takes any
step in the trace. -/
def mutexDiscipline {n : Nat} (sched : List (Fin n)) : Prop :=
  ∀ (t : Fin n) (N i k : Nat),
    occIdx sched t (4 * N + 1) = some i → occIdx sched t (4 * N + 3) = some k →
    ∀ j, i < j → j < k → ∀ t2, sched[j]? = some t2 → t2 = t

/-- The alternating trace of two equal-delay tasks: both sleeps elapse
together, then the event loop switches tasks at every awaited textbox call. -/
def badTrace : List (Fin 2) := [0, 1, 0, 1, 0, 1, 0, 1]

/-- C1 is false of the code: `send_messages` holds no lock, so the admissible
alternating trace runs task 1's fill at global step 3, strictly between task
0's fill (step 2) and press (step 6): the two messages' clear/type/submit
sequences interleave on the shared input surface. -/
theorem c1_counterexample :
    execAction badTrace 2 = some (0, SendStep.fill) ∧
    execAction badTrace 3 = some (1, SendStep.fill) ∧
    execAction badTrace 6 = some (0, SendStep.press) ∧
    ¬ mutexDiscipline badTrace := by
  refine ⟨rfl, rfl, rfl, fun h => ?_⟩
  have h2 := h 0 0 2 6 rfl rfl 3 (by omega) (by omega) 1 rfl
  exact absurd h2 (by decide)
